import Mathlib

/-!
fbauthtool: a verification development.

Shallow embedding of `internal/cli/cli.go`, `internal/config/config.go` and
`cmd/fbauthtool/main.go`, followed by theorems about the embedded functions.

Go strings are modelled as Lean strings, that is as sequences of Unicode
characters; a Go string that is not valid UTF-8 has no counterpart here.  The
libraries that the program calls (regexp, encoding/json, fmt, time, tabwriter,
the dispatcher, the Firebase SDK, the operating system) are modelled as far as
the program depends on them, or taken as parameters.
-/

namespace Fbauthtool

/-! ## regexp: the fragment used by `uidRegExp` -/

/-- One item of a bracketed character class: a single character or a range. -/
inductive ClassItem where
  | single (c : Char)
  | range (lo hi : Char)
  deriving Repr, DecidableEq

/-- Does the class item admit the character? -/
def ClassItem.admits (c : Char) : ClassItem → Bool
  | .single d => c.toNat == d.toNat
  | .range lo hi => decide (lo.toNat ≤ c.toNat) && decide (c.toNat ≤ hi.toNat)

/-- Abstract syntax of the regular-expression fragment that `uidRegExp` uses:
`^`, `$` (without the multi-line flag: begin and end of text), a bracketed
class, a counted repetition `{n}` and concatenation. -/
inductive Regexp where
  | beginText
  | endText
  | charClass (items : List ClassItem)
  | count (r : Regexp) (n : Nat)
  | cat (r₁ r₂ : Regexp)
  deriving Repr

/-- Run `f` from every position of `ps` and collect the end positions. -/
def thenEach (f : Nat → List Nat) (ps : List Nat) : List Nat :=
  ps.flatMap f

/-- Iterate the one-step matcher `f` exactly `n` times from position `p`. -/
def iterate (f : Nat → List Nat) : Nat → Nat → List Nat
  | 0, p => [p]
  | n + 1, p => thenEach (iterate f n) (f p)

/-- All positions at which a match of `r` that starts at position `p` of the
text `xs` can end. -/
def Regexp.ends (xs : List Char) : Regexp → Nat → List Nat
  | .beginText, p => if p = 0 then [p] else []
  | .endText, p => if p = xs.length then [p] else []
  | .charClass items, p =>
      match xs[p]? with
      | some c => if items.any (ClassItem.admits c) then [p + 1] else []
      | none => []
  | .count r n, p => iterate (r.ends xs) n p
  | .cat r₁ r₂, p => thenEach (r₂.ends xs) (r₁.ends xs p)

/-- Encoding of `(*Regexp).MatchString`: an unanchored search, the text matches
when a match starts at some position. -/
def Regexp.MatchString (r : Regexp) (s : String) : Bool :=
  (List.range (s.toList.length + 1)).any fun p => !(r.ends s.toList p).isEmpty

/-- The class `[A-Za-z0123456789]`. -/
def uidClass : List ClassItem :=
  [.range 'A' 'Z', .range 'a' 'z',
   .single '0', .single '1', .single '2', .single '3', .single '4',
   .single '5', .single '6', .single '7', .single '8', .single '9']

/-- Source: `var uidRegExp = regexp.MustCompile("^[A-Za-z0123456789]{28}$")`. -/
def uidRegExp : Regexp :=
  .cat .beginText (.cat (.count (.charClass uidClass) 28) .endText)

/-- Source: `func isValidFirebaseUID(s string) bool`. -/
def isValidFirebaseUID (s : String) : Bool :=
  uidRegExp.MatchString s

/-- The alphabet named by the specification: `A-Z`, `a-z` or `0-9`. -/
def AlnumChar (c : Char) : Prop :=
  ('A' ≤ c ∧ c ≤ 'Z') ∨ ('a' ≤ c ∧ c ≤ 'z') ∨ ('0' ≤ c ∧ c ≤ '9')

instance : DecidablePred AlnumChar := fun c => by
  unfold AlnumChar
  infer_instance

/-! ## encoding/json: decoding of a JSON text

The decoder of the Go standard library is an external collaborator of the
program.  It is modelled here as a push-down scanner over the characters of the
text, following RFC 8259 as that library implements it (insignificant white
space, the three literals, numbers, strings with escapes, arrays, objects, a
nesting limit of 10000, and for objects the rule that a repeated key keeps the
last value).  Numbers are kept as their literal text. -/

/-- A decoded JSON value. -/
inductive JValue where
  | null
  | bool (b : Bool)
  | number (lit : String)
  | string (s : String)
  | array (elems : List JValue)
  | object (members : List (String × JValue))
  deriving Repr

/-- A container that is still open while scanning.  Elements of an array are
held in reverse; an object holds its members and the key whose value is
awaited. -/
inductive Frame where
  | arr (rev : List JValue)
  | obj (members : List (String × JValue)) (key : Option String)
  deriving Repr

/-- One unit of a string literal: a character (written plainly or by a
one-letter escape) or the 16-bit code unit of a `\u` escape. -/
inductive StrUnit where
  | ch (c : Char)
  | u16 (n : Nat)
  deriving Repr, DecidableEq

/-- Progress inside a number literal. -/
inductive NumState where
  | neg | zero | int | dot | frac | exp | expSign | expDigits
  deriving Repr, DecidableEq

/-- What the scanner expects next. -/
inductive Mode where
  | value
  | valueOrEnd
  | keyOrEnd
  | key
  | colon
  | afterValue
  | str (isKey : Bool) (rev : List StrUnit)
  | strEsc (isKey : Bool) (rev : List StrUnit)
  | strU (isKey : Bool) (rev : List StrUnit) (acc : Nat) (left : Nat)
  | num (st : NumState) (rev : List Char)
  | lit (rest : List Char) (v : JValue)
  deriving Repr

/-- Scanner state: the mode, the open containers (innermost first) and the
finished top-level value. -/
structure Scanner where
  mode : Mode
  stack : List Frame
  result : Option JValue
  deriving Repr

/-- Nesting limit of the decoder. -/
def maxNestingDepth : Nat := 10000

def isSpace (c : Char) : Bool :=
  c == ' ' || c == '\t' || c == '\r' || c == '\n'

def isDigit (c : Char) : Bool :=
  decide ('0'.toNat ≤ c.toNat) && decide (c.toNat ≤ '9'.toNat)

def isHex (c : Char) : Bool :=
  isDigit c
    || (decide ('a'.toNat ≤ c.toNat) && decide (c.toNat ≤ 'f'.toNat))
    || (decide ('A'.toNat ≤ c.toNat) && decide (c.toNat ≤ 'F'.toNat))

def hexVal (c : Char) : Nat :=
  if isDigit c then c.toNat - '0'.toNat
  else if decide ('a'.toNat ≤ c.toNat) && decide (c.toNat ≤ 'f'.toNat) then c.toNat - 'a'.toNat + 10
  else c.toNat - 'A'.toNat + 10

/-- The Unicode replacement character U+FFFD. -/
def replacementChar : Char := Char.ofNat 0xFFFD

/-- Character denoted by a one-letter escape. -/
def escChar (c : Char) : Char :=
  if c == 'b' then Char.ofNat 8
  else if c == 'f' then Char.ofNat 12
  else if c == 'n' then '\n'
  else if c == 'r' then '\r'
  else if c == 't' then '\t'
  else c

/-- Decode the units of a string literal.  `hi` is a high surrogate read from
the preceding `\u` escape and still unpaired.  A surrogate pair is combined; a
surrogate without its partner becomes U+FFFD. -/
def decodeUnits : Option Nat → List StrUnit → List Char
  | none, [] => []
  | some _, [] => [replacementChar]
  | none, .ch c :: rest => c :: decodeUnits none rest
  | some _, .ch c :: rest => replacementChar :: c :: decodeUnits none rest
  | none, .u16 n :: rest =>
      if 0xD800 ≤ n ∧ n < 0xDC00 then decodeUnits (some n) rest
      else if 0xDC00 ≤ n ∧ n < 0xE000 then replacementChar :: decodeUnits none rest
      else Char.ofNat n :: decodeUnits none rest
  | some hi, .u16 n :: rest =>
      if 0xDC00 ≤ n ∧ n < 0xE000 then
        Char.ofNat ((hi - 0xD800) * 1024 + (n - 0xDC00) + 0x10000) :: decodeUnits none rest
      else if 0xD800 ≤ n ∧ n < 0xDC00 then replacementChar :: decodeUnits (some n) rest
      else replacementChar :: Char.ofNat n :: decodeUnits none rest

/-- The string denoted by the units of a literal, given in reverse. -/
def unquote (rev : List StrUnit) : String :=
  String.mk (decodeUnits none rev.reverse)

/-- Store a member in an object under construction: a repeated key keeps its
place and takes the new value. -/
def insertMember (k : String) (v : JValue) : List (String × JValue) → List (String × JValue)
  | [] => [(k, v)]
  | (k', v') :: rest => if k' = k then (k, v) :: rest else (k', v') :: insertMember k v rest

/-- Hand a finished value to the innermost open container, or make it the
top-level value. -/
def deliver (v : JValue) : List Frame → Option Scanner
  | [] => some { mode := .afterValue, stack := [], result := some v }
  | .arr rev :: rest => some { mode := .afterValue, stack := .arr (v :: rev) :: rest, result := none }
  | .obj ms (some k) :: rest =>
      some { mode := .afterValue, stack := .obj (insertMember k v ms) none :: rest, result := none }
  | .obj _ none :: _ => none

/-- Open a container, refusing to nest deeper than `maxNestingDepth`. -/
def push (f : Frame) (m : Mode) (stack : List Frame) : Option Scanner :=
  if stack.length + 1 ≤ maxNestingDepth then some { mode := m, stack := f :: stack, result := none }
  else none

/-- Close the innermost container with the bracket `c`. -/
def close (c : Char) : List Frame → Option Scanner
  | .arr rev :: rest => if c == ']' then deliver (.array rev.reverse) rest else none
  | .obj ms none :: rest => if c == '}' then deliver (.object ms) rest else none
  | _ => none

/-- A character read where a value must begin. -/
def beginValue (c : Char) (stack : List Frame) : Option Scanner :=
  if c == '{' then push (.obj [] none) .keyOrEnd stack
  else if c == '[' then push (.arr []) .valueOrEnd stack
  else if c == '"' then some { mode := .str false [], stack := stack, result := none }
  else if c == '-' then some { mode := .num .neg [c], stack := stack, result := none }
  else if c == '0' then some { mode := .num .zero [c], stack := stack, result := none }
  else if isDigit c then some { mode := .num .int [c], stack := stack, result := none }
  else if c == 't' then some { mode := .lit ['r', 'u', 'e'] (.bool true), stack := stack, result := none }
  else if c == 'f' then
    some { mode := .lit ['a', 'l', 's', 'e'] (.bool false), stack := stack, result := none }
  else if c == 'n' then some { mode := .lit ['u', 'l', 'l'] .null, stack := stack, result := none }
  else none

/-- A character read after a complete value. -/
def endValue (c : Char) (s : Scanner) : Option Scanner :=
  if isSpace c then some s
  else
    match s.stack with
    | [] => none
    | .arr rev :: rest =>
        if c == ',' then some { s with mode := .value } else close c (.arr rev :: rest)
    | .obj ms k :: rest =>
        if c == ',' then some { s with mode := .key } else close c (.obj ms k :: rest)

/-- A character read inside a number: the next number state, or `none` when the
character does not continue the number from this state. -/
def numNext (c : Char) : NumState → Option NumState
  | .neg => if c == '0' then some .zero else if isDigit c then some .int else none
  | .zero => if c == '.' then some .dot else if c == 'e' || c == 'E' then some .exp else none
  | .int =>
      if isDigit c then some .int
      else if c == '.' then some .dot else if c == 'e' || c == 'E' then some .exp else none
  | .dot => if isDigit c then some .frac else none
  | .frac => if isDigit c then some .frac else if c == 'e' || c == 'E' then some .exp else none
  | .exp => if c == '+' || c == '-' then some .expSign else if isDigit c then some .expDigits else none
  | .expSign => if isDigit c then some .expDigits else none
  | .expDigits => if isDigit c then some .expDigits else none

/-- May a number end in this state? -/
def NumState.final : NumState → Bool
  | .zero | .int | .frac | .expDigits => true
  | _ => false

/-- One step of the scanner. -/
def step (s : Scanner) (c : Char) : Option Scanner :=
  match s.mode with
  | .value => if isSpace c then some s else beginValue c s.stack
  | .valueOrEnd =>
      if isSpace c then some s else if c == ']' then close c s.stack else beginValue c s.stack
  | .keyOrEnd =>
      if isSpace c then some s
      else if c == '}' then close c s.stack
      else if c == '"' then some { s with mode := .str true [] }
      else none
  | .key =>
      if isSpace c then some s
      else if c == '"' then some { s with mode := .str true [] }
      else none
  | .colon =>
      if isSpace c then some s else if c == ':' then some { s with mode := .value } else none
  | .afterValue => endValue c s
  | .str isKey rev =>
      if c == '"' then
        if isKey then
          match s.stack with
          | .obj ms none :: rest =>
              some { s with mode := .colon, stack := .obj ms (some (unquote rev)) :: rest }
          | _ => none
        else deliver (.string (unquote rev)) s.stack
      else if c == '\\' then some { s with mode := .strEsc isKey rev }
      else if c.toNat < 0x20 then none
      else some { s with mode := .str isKey (.ch c :: rev) }
  | .strEsc isKey rev =>
      if c == 'u' then some { s with mode := .strU isKey rev 0 4 }
      else if c == 'b' || c == 'f' || c == 'n' || c == 'r' || c == 't'
          || c == '\\' || c == '/' || c == '"' then
        some { s with mode := .str isKey (.ch (escChar c) :: rev) }
      else none
  | .strU isKey rev acc left =>
      if isHex c then
        if left ≤ 1 then some { s with mode := .str isKey (.u16 (acc * 16 + hexVal c) :: rev) }
        else some { s with mode := .strU isKey rev (acc * 16 + hexVal c) (left - 1) }
      else none
  | .num st rev =>
      match numNext c st with
      | some st' => some { s with mode := .num st' (c :: rev) }
      | none =>
          if st.final then (deliver (.number (String.mk rev.reverse)) s.stack).bind (endValue c)
          else none
  | .lit rest v =>
      match rest with
      | [] => none
      | [d] => if c == d then deliver v s.stack else none
      | d :: more => if c == d then some { s with mode := .lit more v } else none

/-- Run the scanner over the characters. -/
def scan : Scanner → List Char → Option Scanner
  | s, [] => some s
  | s, c :: cs => (step s c).bind fun s' => scan s' cs

/-- Parse a JSON text into a value: `none` is a syntax error.  As the decoder
does, a blank is fed after the last character so that a trailing number ends. -/
def parseJSON (text : String) : Option JValue :=
  match (scan { mode := .value, stack := [], result := none } text.toList).bind (step · ' ') with
  | some { mode := .afterValue, stack := [], result := some v } => some v
  | _ => none

/-! ## Errors, claims and the external collaborators -/

/-- Go `error` values that the program creates or passes on. -/
inductive Error where
  /-- A `*json.SyntaxError`. -/
  | jsonSyntax
  /-- A `*json.UnmarshalTypeError`. -/
  | jsonUnmarshalType
  /-- Made by `errors.New`. -/
  | new (msg : String)
  /-- Returned by an external collaborator (operating system, remote service). -/
  | external (msg : String)
  /-- Made by `errors.Wrap` and `errors.Wrapf`: a message around a cause. -/
  | wrap (cause : Error) (msg : String)
  deriving Repr, DecidableEq

/-- A Go `map[string]interface{}` holding custom claims: `none` is the nil map. -/
abbrev Claims := Option (List (String × JValue))

mutual
/-- Does every number of the value convert, where `ok` tells whether a number
literal converts to a `float64`? -/
def JValue.numbersOk (ok : String → Bool) : JValue → Bool
  | .number lit => ok lit
  | .array elems => numbersOkList ok elems
  | .object members => numbersOkMembers ok members
  | _ => true
/-- Does every number of the elements convert? -/
def numbersOkList (ok : String → Bool) : List JValue → Bool
  | [] => true
  | v :: vs => v.numbersOk ok && numbersOkList ok vs
/-- Does every number of the members convert? -/
def numbersOkMembers (ok : String → Bool) : List (String × JValue) → Bool
  | [] => true
  | (_, v) :: ms => v.numbersOk ok && numbersOkMembers ok ms
end

/-- Functions of the Go standard library that the program calls and that are
not modelled further. -/
structure Lib where
  /-- Does `strconv.ParseFloat(lit, 64)` succeed on the number literal? -/
  parseFloatOk : String → Bool
  /-- The text of `json.Marshal` of a claims map, or its error. -/
  jsonMarshal : Claims → Except Error String
  /-- The text of `time.Unix(sec, 0).Format(time.RFC1123)`. -/
  formatRFC1123 : Int → String
  /-- The text of `fmt.Sprintf(format)` given no operands. -/
  sprintf0 : String → String

/-- Encoding of `json.Unmarshal([]byte(data), &m)` for `var m map[string]interface{}`
that is nil before the call: the error, or the value of `m` afterwards.  The
text is checked first; then `null` leaves the map nil, an object fills a new
map, and any other value is a type error.  A number that does not convert to
`float64` is a type error as well. -/
def jsonUnmarshalMap (lib : Lib) (data : String) : Except Error Claims :=
  match parseJSON data with
  | none => .error .jsonSyntax
  | some .null => .ok none
  | some (.object members) =>
      if numbersOkMembers lib.parseFloatOk members then .ok (some members)
      else .error .jsonUnmarshalType
  | some _ => .error .jsonUnmarshalType

/-- An `io.Writer` that the program writes to. -/
inductive Writer where
  /-- The process's `os.Stdout`. -/
  | osStdout
  /-- The process's `os.Stderr`. -/
  | osStderr
  /-- Any other writer, by an identifier. -/
  | other (id : Nat)
  deriving Repr, DecidableEq

/-- A row handed to the `tabwriter` by one `Fprintf`: the three operands of the
row format `"%v\t\t%v\t\t%v\t\t\n"`.  The `tabwriter` keeps what it is handed
until `Flush`; how it aligns the cells of a row is not modelled. -/
structure Row where
  c₁ : String
  c₂ : String
  c₃ : String
  deriving Repr, DecidableEq

/-- Something written to a writer: a text, or the rows that one `Flush` of a
`tabwriter` hands to its underlying writer (aligned by the `tabwriter`). -/
inductive Output where
  | text (w : Writer) (s : String)
  | table (w : Writer) (rows : List Row)
  deriving Repr, DecidableEq

/-- The fields of `auth.UserRecord` that the program reads. -/
structure UserRecord where
  UID : String
  Email : String
  DisplayName : String
  EmailVerified : Bool
  CustomClaims : Claims
  /-- The field `UserMetadata.CreationTimestamp`, an `int64` of milliseconds. -/
  CreationTimestamp : Int
  deriving Repr

/-- The fields of `auth.ExportedUserRecord` that the program reads. -/
structure ExportedUserRecord where
  UID : String
  Email : String
  DisplayName : String
  deriving Repr, DecidableEq

/-- A call to the remote identity service. -/
inductive Call where
  | SetCustomUserClaims (uid : String) (claims : Claims)
  | GetUser (uid : String)
  | GetUserByEmail (email : String)
  /-- A call of `pager.NextPage` on the pager over `Users(ctx, "")` with page size 100. -/
  | NextPage
  deriving Repr

/-- The `*auth.Client` with the pager made from it.  Every answer may depend on
the calls made before (the first argument), so the service may be stateful. -/
structure Client where
  SetCustomUserClaims : List Call → String → Claims → Option Error
  GetUser : List Call → String → Except Error UserRecord
  GetUserByEmail : List Call → String → Except Error UserRecord
  /-- The users of the next page and the next page token, or the error. -/
  NextPage : List Call → Except Error (List ExportedUserRecord × String)

/-- How a command body ends. -/
inductive Exit where
  /-- It returns the error, `none` for nil. -/
  | returned (err : Option Error)
  /-- It calls `os.Exit(code)`. -/
  | osExit (code : Nat)
  /-- It panics. -/
  | panicked
  deriving Repr, DecidableEq

/-- What a command body does: how it ends, the remote calls it makes and what
it writes, each in order. -/
structure Outcome where
  exit : Exit
  calls : List Call
  out : List Output
  deriving Repr

/-! ## internal/config/config.go -/

/-- The contents of a file. -/
abbrev Bytes := List UInt8

/-- Source: `type Item struct`. -/
structure Item where
  FBCreds : Bytes
  deriving Repr, DecidableEq

/-- Source: `type Config struct`.  `Current` is a pointer, `none` when nil;
`Cfgs` is a map, held as the list of its entries. -/
structure Config where
  Current : Option Item
  Cfgs : List (String × Item)
  deriving Repr, DecidableEq

/-- Source: `type serviceAccountRef struct`. -/
structure serviceAccountRef where
  ProjectID : String
  Filepath : String
  deriving Repr, DecidableEq

/-- Source: `type serviceAccountsConfig struct`. -/
structure serviceAccountsConfig where
  ServiceAccounts : List serviceAccountRef
  deriving Repr, DecidableEq

/-- The operating system and library functions that the config loader calls.
The file system does not change while the configuration is loaded. -/
structure OS where
  /-- The result of `user.Current()`: the home directory, or the error. -/
  userCurrent : Except Error String
  /-- The path made by `filepath.Join`. -/
  filepathJoin : List String → String
  /-- The result of `os.Open`: the contents that the handle reads, or the error. -/
  Open : String → Except Error Bytes
  /-- The result of `Decode` on a decoder that disallows unknown fields. -/
  Decode : Bytes → Except Error serviceAccountsConfig
  /-- The result of `os.ReadFile`. -/
  ReadFile : String → Except Error Bytes

def configDir : String := ".fbauthtool"

def configFile : String := "config.json"

/-- Source: `func homeDir() (string, error)`. -/
def homeDir (os : OS) : String × Option Error :=
  match os.userCurrent with
  | .error err => ("", some (.wrap err "user.Current()"))
  | .ok hd => (hd, none)

/-- Assignment `m[k] = v` on a map held as the list of its entries. -/
def mapSet {α : Type} (k : String) (v : α) : List (String × α) → List (String × α)
  | [] => [(k, v)]
  | (k', v') :: rest => if k' = k then (k, v) :: rest else (k', v') :: mapSet k v rest

/-- Source: the loop `for i, v := range sac.ServiceAccounts` of
`NewConfigFromFile`, from index `i` on. -/
def loadAccounts (os : OS) : Nat → List serviceAccountRef → Config → Option Config × Option Error
  | _, [], cfg => (some cfg, none)
  | i, v :: rest, cfg =>
    match os.ReadFile v.Filepath with
    | .error err => (none, some err)
    | .ok b =>
      let item : Item := { FBCreds := b }
      let cfg₁ := { cfg with Cfgs := mapSet v.ProjectID item cfg.Cfgs }
      let cfg₂ := if i = 0 then { cfg₁ with Current := some item } else cfg₁
      loadAccounts os (i + 1) rest cfg₂

/-- Source: `func NewConfigFromFile() (*Config, error)`.  A nil result is `none`. -/
def NewConfigFromFile (os : OS) : Option Config × Option Error :=
  match homeDir os with
  | (_, some err) => (none, some (.wrap err "[run] failed to get home dir"))
  | (hd, none) =>
    let filename := os.filepathJoin [hd, configDir, configFile]
    match os.Open filename with
    | .error err => (none, some err)
    | .ok f =>
      match os.Decode f with
      | .error err => (none, some err)
      | .ok sac => loadAccounts os 0 sac.ServiceAccounts { Current := none, Cfgs := [] }

/-! ## internal/cli/cli.go -/

/-- Source: `type App struct`, without the version fields; the client is passed
to the command bodies directly. -/
structure App where
  cfg : Option Config
  stdOut : Writer
  stdErr : Writer
  deriving Repr, DecidableEq

/-- Source: `func NewApp(options ...Option) *App` with the option `WithConfig(cfg)`:
the output streams are those of the process. -/
def NewApp (cfg : Option Config) : App :=
  { cfg := cfg, stdOut := .osStdout, stdErr := .osStderr }

/-- Source: `func (a *App) Config() *config.Config`. -/
def App.Config (a : App) : Option Config := a.cfg

/-- Source: `func displayUser(out io.Writer, u *auth.UserRecord) error`.
Gives the error (`none` for nil) and what is written. -/
def displayUser (lib : Lib) (out : Writer) (u : UserRecord) : Option Error × List Output :=
  let o₁ := [Output.text out ("UID: " ++ u.UID ++ "\n"),
             Output.text out ("Email: " ++ u.Email ++ "\n"),
             Output.text out ("Display name: " ++ u.DisplayName ++ "\n"),
             if u.EmailVerified then Output.text .osStdout "Email verified: Yes\n"
             else Output.text .osStdout "Email verified: No\n"]
  match lib.jsonMarshal u.CustomClaims with
  | .error err => (some err, o₁)
  | .ok b =>
      let t := lib.formatRFC1123 (Int.tdiv u.CreationTimestamp 1000)
      (none, o₁ ++ [Output.text out ("CustomClaims: " ++ b ++ "\n"),
                    Output.text .osStdout ("Created: " ++ t ++ "\n")])

/-- Source: the `RunE` function of `NewCmdUsersSetClaims`. -/
def NewCmdUsersSetClaims.RunE (lib : Lib) (fbAuthClient : Client) (app : App)
    (args : List String) : Outcome :=
  match args with
  | [] => { exit := .panicked, calls := [], out := [] }
  | uid :: rest =>
    if !isValidFirebaseUID uid then
      { exit := .osExit 1, calls := [],
        out := [.text app.stdErr (lib.sprintf0 ("User with uid " ++ uid ++ " not found.\n"))] }
    else
      match rest with
      | [] => { exit := .panicked, calls := [], out := [] }
      | jsonArg :: _ =>
        match jsonUnmarshalMap lib jsonArg with
        | .error _ =>
            { exit := .osExit 1, calls := [],
              out := [.text app.stdErr (lib.sprintf0 "Failed to parse the JSON string")] }
        | .ok customClaims =>
          let calls₁ := [Call.SetCustomUserClaims uid customClaims]
          match fbAuthClient.SetCustomUserClaims [] uid customClaims with
          | some _ =>
              { exit := .osExit 1, calls := calls₁,
                out := [.text .osStderr
                  (lib.sprintf0 ("Failed to set custom claims for user " ++ uid))] }
          | none =>
            let calls₂ := calls₁ ++ [Call.GetUser uid]
            match fbAuthClient.GetUser calls₁ uid with
            | .error err => { exit := .returned (some err), calls := calls₂, out := [] }
            | .ok userRecord =>
                { exit := .returned none, calls := calls₂,
                  out := (displayUser lib app.stdOut userRecord).2 }

/-- Source: the `RunE` function of `NewCmdUsersGetOne`.  The first half runs when
the argument passes the identifier check; it gives the error to return, if any,
with the calls made and the output written. -/
def getOneByUID (lib : Lib) (fbAuthClient : Client) (app : App) (uidOrEmail : String) :
    Option Error × List Call × List Output :=
  if isValidFirebaseUID uidOrEmail then
    match fbAuthClient.GetUser [] uidOrEmail with
    | .error err => (some err, [Call.GetUser uidOrEmail], [])
    | .ok userRecord =>
        let d := displayUser lib app.stdOut userRecord
        (d.1, [Call.GetUser uidOrEmail], d.2)
  else (none, [], [])

/-- Source: the `RunE` function of `NewCmdUsersGetOne`. -/
def NewCmdUsersGetOne.RunE (lib : Lib) (fbAuthClient : Client) (app : App)
    (args : List String) : Outcome :=
  match args with
  | [] => { exit := .panicked, calls := [], out := [] }
  | uidOrEmail :: _ =>
    match getOneByUID lib fbAuthClient app uidOrEmail with
    | (some err, calls, out) => { exit := .returned (some err), calls := calls, out := out }
    | (none, calls, out) =>
      -- assume it's an email
      let calls₂ := calls ++ [Call.GetUserByEmail uidOrEmail]
      match fbAuthClient.GetUserByEmail calls uidOrEmail with
      | .error err => { exit := .returned (some err), calls := calls₂, out := out }
      | .ok userRecord =>
          let d := displayUser lib app.stdOut userRecord
          { exit := .returned d.1, calls := calls₂, out := out ++ d.2 }

/-- The rows that the list command writes for the users of a page: one for
each user with a non-empty email. -/
def pageRows (users : List ExportedUserRecord) : List Row :=
  (users.filter fun u => u.Email != "").map fun u => ⟨u.UID, u.Email, u.DisplayName⟩

/-- The header row of the list command. -/
def headerRow : Row := ⟨"UID", "Email", "DISPLAY NAME"⟩

/-- Source: the `for` loop in the `RunE` function of `NewCmdUsersList`, run for
at most `fuel` rounds (`none` when the rounds run out).  `calls` and `out`
are the calls made and the output written so far, `tw` holds the rows in the
`tabwriter` that are not yet flushed. -/
def listLoop (lib : Lib) (fbAuthClient : Client) (app : App) :
    Nat → List Call → List Row → List Output → Option Outcome
  | 0, _, _, _ => none
  | fuel + 1, calls, tw, out =>
    match fbAuthClient.NextPage calls with
    | .error err =>
        some { exit := .returned (some (.wrap err (lib.sprintf0 "[run] paging error %v\n"))),
               calls := calls ++ [Call.NextPage], out := out }
    | .ok (users, nextPageToken) =>
        let out' := out ++ [Output.table app.stdOut (tw ++ pageRows users)]
        if nextPageToken == "" then
          some { exit := .returned none, calls := calls ++ [Call.NextPage], out := out' }
        else listLoop lib fbAuthClient app fuel (calls ++ [Call.NextPage]) [] out'

/-- Source: the `RunE` function of `NewCmdUsersList`: the header row goes into
the `tabwriter`, then the loop runs. -/
def NewCmdUsersList.RunE (lib : Lib) (fbAuthClient : Client) (app : App) (fuel : Nat) :
    Option Outcome :=
  listLoop lib fbAuthClient app fuel [] [headerRow] []

/-- Source: the `Args` function of `NewCmdUsersSetClaims`. -/
def NewCmdUsersSetClaims.Args (args : List String) : Option Error :=
  if args.length ≠ 2 then some (.new "accepts UID JSON arguments") else none

/-- Source: the `Args` function of `NewCmdUsersGetOne`. -/
def NewCmdUsersGetOne.Args (args : List String) : Option Error :=
  if args.length < 1 then some (.new "missing UID|EMAIL argument") else none

/-! ## cmd/fbauthtool/main.go -/

/-- A Firebase app made by `firebase.NewApp`: what its `Auth` method gives. -/
structure FirebaseApp where
  Auth : Except Error Client

/-- The Firebase SDK entry point `firebase.NewApp` with the credentials option. -/
structure Firebase where
  NewApp : Bytes → Except Error FirebaseApp

/-- The command that the dispatcher (cobra) selects for the command line, with
its arguments. -/
inductive Selected where
  | setClaims (args : List String)
  | getOne (args : List String)
  | list (args : List String)
  /-- No command body to run (help, version, or an error found by the
  dispatcher, which is then the result). -/
  | nothing (err : Option Error)
  deriving Repr

/-- A step of `run` that the theorems observe. -/
inductive Event where
  /-- The dispatcher is started: `root.ExecuteContext(ctx)`. -/
  | executeContext
  /-- The session bootstrap is started: `PersistentPreRunE`. -/
  | persistentPreRunE
  /-- The call `firebase.NewApp` with the credentials. -/
  | firebaseNewApp (creds : Bytes)
  /-- A command body is started. -/
  | runE
  deriving Repr, DecidableEq

/-- How `run` ends. -/
inductive RunExit where
  /-- It returns the error, `none` for nil. -/
  | returned (err : Option Error)
  /-- The process exits with the code. -/
  | osExit (code : Nat)
  /-- It panics on a nil pointer. -/
  | nilDereference
  /-- Another panic. -/
  | panicked
  /-- The command body did not end within the rounds given. -/
  | outOfFuel
  deriving Repr, DecidableEq

/-- What `run` does: how it ends, its steps, the remote calls and what the
program writes (what the dispatcher itself writes is left out). -/
structure RunOutcome where
  exit : RunExit
  events : List Event
  calls : List Call
  out : List Output
  deriving Repr

/-- Source: the `PersistentPreRunE` function of the root command: the client, or
the error, or `none` for the panic of reading `cfg.Current.FBCreds` through a
nil pointer; with the events. -/
def PersistentPreRunE (fb : Firebase) (app : App) : Option (Except Error Client) × List Event :=
  match app.Config with
  | none => (none, [.persistentPreRunE])
  | some cfg =>
    match cfg.Current with
    | none => (none, [.persistentPreRunE])
    | some current =>
      let events := [Event.persistentPreRunE, Event.firebaseNewApp current.FBCreds]
      match fb.NewApp current.FBCreds with
      | .error err => (some (.error (.wrap err "[run] failed to initialize Firebase app")), events)
      | .ok fbApp =>
        match fbApp.Auth with
        | .error err =>
            (some (.error (.wrap err "[run] failed to initialize Firebase Auth client")), events)
        | .ok fbAuthClient => (some (.ok fbAuthClient), events)

/-- The dispatcher runs a command whose arguments it has accepted: first
`PersistentPreRunE`, then the command body with the client. -/
def runCommand (fb : Firebase) (app : App) (body : Client → Option Outcome) : RunOutcome :=
  match PersistentPreRunE fb app with
  | (none, events) =>
      { exit := .nilDereference, events := .executeContext :: events, calls := [], out := [] }
  | (some (.error err), events) =>
      { exit := .returned (some err), events := .executeContext :: events, calls := [], out := [] }
  | (some (.ok fbAuthClient), events) =>
    let events := .executeContext :: events ++ [.runE]
    match body fbAuthClient with
    | none => { exit := .outOfFuel, events := events, calls := [], out := [] }
    | some o =>
      let exit : RunExit :=
        match o.exit with
        | .returned err => .returned err
        | .osExit code => .osExit code
        | .panicked => .panicked
      { exit := exit, events := events, calls := o.calls, out := o.out }

/-- The call `root.ExecuteContext(ctx)`: the dispatcher checks the arguments of
the selected command with its `Args` function and runs it. -/
def ExecuteContext (lib : Lib) (fb : Firebase) (app : App) (sel : Selected) (fuel : Nat) :
    RunOutcome :=
  match sel with
  | .nothing err => { exit := .returned err, events := [.executeContext], calls := [], out := [] }
  | .setClaims args =>
    match NewCmdUsersSetClaims.Args args with
    | some err =>
        { exit := .returned (some err), events := [.executeContext], calls := [], out := [] }
    | none => runCommand fb app fun c => some (NewCmdUsersSetClaims.RunE lib c app args)
  | .getOne args =>
    match NewCmdUsersGetOne.Args args with
    | some err =>
        { exit := .returned (some err), events := [.executeContext], calls := [], out := [] }
    | none => runCommand fb app fun c => some (NewCmdUsersGetOne.RunE lib c app args)
  | .list _ => runCommand fb app fun c => NewCmdUsersList.RunE lib c app fuel

/-- Source: `func run() error`, given the command that the dispatcher selects.
`showError` is the text of an error under the verb `%v`. -/
def run (os : OS) (lib : Lib) (fb : Firebase) (showError : Error → String) (sel : Selected)
    (fuel : Nat) : RunOutcome :=
  -- read the config file
  match NewConfigFromFile os with
  | (_, some err) => { exit := .returned (some err), events := [], calls := [], out := [] }
  | (cfg, none) =>
    let app := NewApp cfg
    let r := ExecuteContext lib fb app sel fuel
    match r.exit with
    | .returned (some err) =>
        { r with exit := .osExit 1, out := r.out ++ [.text .osStderr (showError err ++ "\n")] }
    | _ => r

/-! ## Sample collaborators, for evaluating the commands -/

/-- A library instance: every number converts, claims are marshalled to the
text `null` (as a nil map is), dates are shown as the number of seconds, a format is its own text. -/
def sampleLib : Lib :=
  { parseFloatOk := fun _ => true
    jsonMarshal := fun _ => .ok "null"
    formatRFC1123 := fun sec => toString sec
    sprintf0 := fun format => format }

/-- An identifier that passes the check. -/
def sampleUID : String := "abcdefghijklmnopqrstuvwxyz01"

/-- A user record. -/
def sampleUser : UserRecord :=
  { UID := sampleUID, Email := "ann@example.com", DisplayName := "Ann", EmailVerified := true,
    CustomClaims := none, CreationTimestamp := 1500 }

/-- A client whose every call succeeds; the listing has one empty page. -/
def okClient : Client :=
  { SetCustomUserClaims := fun _ _ _ => none
    GetUser := fun _ _ => .ok sampleUser
    GetUserByEmail := fun _ _ => .ok sampleUser
    NextPage := fun _ => .ok ([], "") }

/-- A client whose every call fails. -/
def failingClient : Client :=
  { SetCustomUserClaims := fun _ _ _ => some (.external "unavailable")
    GetUser := fun _ _ => .error (.external "user not found")
    GetUserByEmail := fun _ _ => .error (.external "user not found")
    NextPage := fun _ => .error (.external "unavailable") }

/-- The application as `run` makes it, without a configuration. -/
def sampleApp : App := NewApp none

/-- Is the call a `SetCustomUserClaims`? -/
def Call.isSetCustomUserClaims : Call → Bool
  | .SetCustomUserClaims _ _ => true
  | _ => false

/-- Is the value a JSON object? -/
def JValue.isObject : JValue → Bool
  | .object _ => true
  | _ => false

/-- Is the value the literal `null`? -/
def JValue.isNull : JValue → Bool
  | .null => true
  | _ => false

/-- A page of the listing: its users and the next page token. -/
abbrev Page := List ExportedUserRecord × String

/-- The rows that reached the writer `w`, in the order written. -/
def writtenRows (w : Writer) : List Output → List Row
  | [] => []
  | .table w' rows :: rest => if w' = w then rows ++ writtenRows w rest else writtenRows w rest
  | .text _ _ :: rest => writtenRows w rest

/-- The flushes of a `tabwriter` on `w` that holds the rows `tw`, one flush
after the rows of each page. -/
def flushes (w : Writer) : List Row → List Page → List Output
  | _, [] => []
  | tw, p :: ps => .table w (tw ++ pageRows p.1) :: flushes w [] ps

/-- A client that serves the given pages in order and fails afterwards. -/
def pagesClient (pages : List Page) : Client :=
  { failingClient with
    NextPage := fun calls =>
      match pages[calls.length]? with
      | some p => .ok p
      | none => .error (.external "unavailable") }

/-- Three pages of users; the third carries the empty token. -/
def samplePages : List Page :=
  [([⟨"u1", "a@example.com", "A"⟩, ⟨"u2", "", "B"⟩], "t1"),
   ([⟨"u3", "c@example.com", "C"⟩], "t2"),
   ([⟨"u4", "", "D"⟩, ⟨"u5", "e@example.com", "E"⟩], "")]

/-- An operating system for evaluating the config loader: the manifest is
found and decodes to `sac`; the files `a.json` and `b.json` are readable, no
other file is. -/
def sampleOS (sac : serviceAccountsConfig) : OS :=
  { userCurrent := .ok "/home/ann"
    filepathJoin := fun parts => "/".intercalate parts
    Open := fun path =>
      if path = "/home/ann/.fbauthtool/config.json" then .ok []
      else .error (.external "no such file")
    Decode := fun _ => .ok sac
    ReadFile := fun path =>
      if path = "a.json" then .ok [1, 2, 3]
      else if path = "b.json" then .ok [4, 5]
      else .error (.external "no such file") }

/-- A Firebase SDK whose calls give `okClient`. -/
def sampleFirebase : Firebase :=
  { NewApp := fun _ => .ok { Auth := .ok okClient } }

/-! ## Theorems: the identifier check -/

theorem mem_thenEach {f : Nat → List Nat} {ps : List Nat} {q : Nat} :
    q ∈ thenEach f ps ↔ ∃ p ∈ ps, q ∈ f p := by
  simp [thenEach, List.mem_flatMap]

/-- A class matches one admitted character and moves one position on. -/
theorem mem_ends_charClass {xs : List Char} {items : List ClassItem} {p q : Nat} :
    q ∈ (Regexp.charClass items).ends xs p ↔
      q = p + 1 ∧ ∃ c, xs[p]? = some c ∧ items.any (ClassItem.admits c) = true := by
  have e : (Regexp.charClass items).ends xs p =
      match xs[p]? with
      | some c => if items.any (ClassItem.admits c) then [p + 1] else []
      | none => [] := rfl
  rw [e]
  cases h : xs[p]? with
  | none => simp
  | some c =>
    by_cases hc : items.any (ClassItem.admits c) = true
    · show (q ∈ if items.any (ClassItem.admits c) = true then [p + 1] else []) ↔ _
      rw [if_pos hc, List.mem_singleton]
      exact ⟨fun hq => ⟨hq, c, rfl, hc⟩, fun hq => hq.1⟩
    · show (q ∈ if items.any (ClassItem.admits c) = true then [p + 1] else []) ↔ _
      rw [if_neg hc]
      refine ⟨fun hq => absurd hq (List.not_mem_nil _), ?_⟩
      rintro ⟨-, d, hd, hadm⟩
      cases hd
      exact absurd hadm hc

/-- A class repeated `n` times matches `n` admitted characters in a row. -/
theorem mem_iterate_charClass {xs : List Char} {items : List ClassItem} (n : Nat) :
    ∀ {p q : Nat}, q ∈ iterate ((Regexp.charClass items).ends xs) n p ↔
      q = p + n ∧ ∀ j, j < n → ∃ c, xs[p + j]? = some c ∧ items.any (ClassItem.admits c) = true := by
  induction n with
  | zero => intro p q; simp [iterate]
  | succ n ih =>
    intro p q
    rw [iterate, mem_thenEach]
    constructor
    · rintro ⟨r, hr, hq⟩
      obtain ⟨rfl, c, hc, hadm⟩ := mem_ends_charClass.mp hr
      obtain ⟨rfl, hall⟩ := ih.mp hq
      refine ⟨by omega, fun j hj => ?_⟩
      cases j with
      | zero => exact ⟨c, by simpa using hc, hadm⟩
      | succ j =>
        have := hall j (by omega)
        rwa [show p + 1 + j = p + (j + 1) by omega] at this
    · rintro ⟨rfl, hall⟩
      obtain ⟨c, hc, hadm⟩ := hall 0 (by omega)
      refine ⟨p + 1, mem_ends_charClass.mpr ⟨rfl, c, by simpa using hc, hadm⟩,
        ih.mpr ⟨by omega, fun j hj => ?_⟩⟩
      have := hall (j + 1) (by omega)
      rwa [show p + (j + 1) = p + 1 + j by omega] at this

/-- The class of `uidRegExp` admits exactly the alphabet of the specification. -/
theorem uidClass_admits (c : Char) :
    uidClass.any (ClassItem.admits c) = true ↔ AlnumChar c := by
  simp only [uidClass, List.any_cons, List.any_nil, ClassItem.admits, AlnumChar, Char.le_def,
    UInt32.le_def, BitVec.le_def, Bool.or_eq_true, Bool.and_eq_true, decide_eq_true_eq,
    beq_iff_eq, Bool.or_false]
  have hA : ('A' : Char).val.toBitVec.toNat = 65 := by decide
  have hZ : ('Z' : Char).val.toBitVec.toNat = 90 := by decide
  have ha : ('a' : Char).val.toBitVec.toNat = 97 := by decide
  have hz : ('z' : Char).val.toBitVec.toNat = 122 := by decide
  have h0 : ('0' : Char).val.toBitVec.toNat = 48 := by decide
  have h9 : ('9' : Char).val.toBitVec.toNat = 57 := by decide
  have t0 : ('0' : Char).toNat = 48 := by decide
  have t1 : ('1' : Char).toNat = 49 := by decide
  have t2 : ('2' : Char).toNat = 50 := by decide
  have t3 : ('3' : Char).toNat = 51 := by decide
  have t4 : ('4' : Char).toNat = 52 := by decide
  have t5 : ('5' : Char).toNat = 53 := by decide
  have t6 : ('6' : Char).toNat = 54 := by decide
  have t7 : ('7' : Char).toNat = 55 := by decide
  have t8 : ('8' : Char).toNat = 56 := by decide
  have t9 : ('9' : Char).toNat = 57 := by decide
  have tA : ('A' : Char).toNat = 65 := by decide
  have tZ : ('Z' : Char).toNat = 90 := by decide
  have ta : ('a' : Char).toNat = 97 := by decide
  have tz : ('z' : Char).toNat = 122 := by decide
  have hc : c.toNat = c.val.toBitVec.toNat := rfl
  rw [hA, hZ, ha, hz, h0, h9, t0, t1, t2, t3, t4, t5, t6, t7, t8, t9, tA, tZ, ta, tz, hc]
  omega

/-- The matches of `uidRegExp`: only from the start of the text, and only over a
text of 28 admitted characters. -/
theorem mem_ends_uidRegExp {xs : List Char} {p q : Nat} :
    q ∈ uidRegExp.ends xs p ↔
      p = 0 ∧ q = 28 ∧ xs.length = 28 ∧
        ∀ j, j < 28 → ∃ c, xs[j]? = some c ∧ uidClass.any (ClassItem.admits c) = true := by
  have e : uidRegExp.ends xs p =
      thenEach (fun r => thenEach (fun m => if m = xs.length then [m] else [])
        (iterate ((Regexp.charClass uidClass).ends xs) 28 r)) (if p = 0 then [p] else []) := rfl
  rw [e, mem_thenEach]
  constructor
  · rintro ⟨r, hr, hq⟩
    obtain ⟨m, hm, hq⟩ := mem_thenEach.mp hq
    obtain ⟨rfl, hall⟩ := (mem_iterate_charClass 28).mp hm
    have hr0 : r = 0 ∧ p = 0 := by
      by_cases hp : p = 0
      · subst hp; simpa using hr
      · simp [hp] at hr
    obtain ⟨rfl, rfl⟩ := hr0
    have hlen : xs.length = 28 ∧ q = 28 := by
      by_cases hl : 0 + 28 = xs.length
      · simp [hl] at hq; omega
      · simp [hl] at hq
    exact ⟨rfl, hlen.2, hlen.1, fun j hj => by simpa using hall j hj⟩
  · rintro ⟨rfl, rfl, hlen, hall⟩
    refine ⟨0, by simp, mem_thenEach.mpr ⟨28, ?_, by simp [hlen]⟩⟩
    exact (mem_iterate_charClass 28).mpr ⟨by omega, fun j hj => by simpa using hall j hj⟩

/-- The search of `MatchString` with `uidRegExp` over a list of characters. -/
theorem uidRegExp_search (xs : List Char) :
    ((List.range (xs.length + 1)).any fun p => !(uidRegExp.ends xs p).isEmpty) = true ↔
      xs.length = 28 ∧ ∀ c ∈ xs, AlnumChar c := by
  rw [List.any_eq_true]
  constructor
  · rintro ⟨p, -, hp⟩
    obtain ⟨q, hq⟩ : ∃ q, q ∈ uidRegExp.ends xs p := by
      cases h : uidRegExp.ends xs p with
      | nil => rw [h] at hp; simp at hp
      | cons a t => exact ⟨a, List.mem_cons_self _ _⟩
    obtain ⟨-, -, hl, hall⟩ := mem_ends_uidRegExp.mp hq
    refine ⟨hl, fun c hc => ?_⟩
    obtain ⟨j, hj, rfl⟩ := List.getElem_of_mem hc
    obtain ⟨d, hd, hadm⟩ := hall j (by omega)
    rw [List.getElem?_eq_getElem hj] at hd
    cases hd
    exact (uidClass_admits _).mp hadm
  · rintro ⟨hl, hall⟩
    refine ⟨0, List.mem_range.mpr (by omega), ?_⟩
    have h28 : 28 ∈ uidRegExp.ends xs 0 :=
      mem_ends_uidRegExp.mpr ⟨rfl, rfl, hl, fun j hj =>
        ⟨xs[j], List.getElem?_eq_getElem (by omega),
          (uidClass_admits _).mpr (hall _ (List.getElem_mem _))⟩⟩
    cases h : uidRegExp.ends xs 0 with
    | nil => rw [h] at h28; simp at h28
    | cons a t => rfl

/-- The identifier check holds exactly for the texts of 28 characters of the
alphabet. -/
theorem isValidFirebaseUID_iff (s : String) :
    isValidFirebaseUID s = true ↔ s.length = 28 ∧ ∀ c ∈ s.toList, AlnumChar c :=
  uidRegExp_search s.toList

/-- C1: `isValidFirebaseUID s` is true if and only if `s` has exactly 28
characters, each of them in `A-Z`, `a-z` or `0-9`; so it is false for 28 such
characters followed by a newline, for the empty string, and for every string
whose length is not 28. -/
theorem C1_isValidFirebaseUID_spec :
    (∀ s : String, isValidFirebaseUID s = true ↔ s.length = 28 ∧ ∀ c ∈ s.toList, AlnumChar c) ∧
    (∀ s : String, s.length = 28 → (∀ c ∈ s.toList, AlnumChar c) →
      isValidFirebaseUID (s ++ "\n") = false) ∧
    isValidFirebaseUID "" = false ∧
    (∀ s : String, s.length ≠ 28 → isValidFirebaseUID s = false) := by
  refine ⟨isValidFirebaseUID_iff, fun s hs _ => ?_, ?_, fun s hs => ?_⟩
  · have hlen : (s ++ "\n").length = 29 := by rw [String.length_append, hs]; rfl
    cases h : isValidFirebaseUID (s ++ "\n") with
    | false => rfl
    | true => have := ((isValidFirebaseUID_iff _).mp h).1; omega
  · decide
  · cases h : isValidFirebaseUID s with
    | false => rfl
    | true => exact absurd ((isValidFirebaseUID_iff _).mp h).1 hs

/-- C1, at concrete inputs: a 28-character identifier passes, the same followed
by a newline fails, a 27-character text fails, a text with a hyphen fails. -/
theorem C1_isValidFirebaseUID_spec_witness :
    isValidFirebaseUID "abcdefghijklmnopqrstuvwxyz01" = true ∧
    isValidFirebaseUID ("abcdefghijklmnopqrstuvwxyz01" ++ "\n") = false ∧
    isValidFirebaseUID "abcdefghijklmnopqrstuvwxyz0" = false := by
  refine ⟨?_, ?_, ?_⟩
  · exact (C1_isValidFirebaseUID_spec.1 _).mpr ⟨by decide, by decide⟩
  · exact C1_isValidFirebaseUID_spec.2.1 "abcdefghijklmnopqrstuvwxyz01" (by decide) (by decide)
  · exact C1_isValidFirebaseUID_spec.2.2.2 _ (by decide)

/-! ## Theorems: set-claims -/

/-- What `json.Unmarshal` into the map gives on a text that does not parse. -/
theorem jsonUnmarshalMap_malformed (lib : Lib) (json : String) (h : parseJSON json = none) :
    jsonUnmarshalMap lib json = .error .jsonSyntax := by
  simp [jsonUnmarshalMap, h]

/-- What `json.Unmarshal` into the map gives on a value that is neither an object
nor `null`. -/
theorem jsonUnmarshalMap_other (lib : Lib) (json : String) (v : JValue)
    (h : parseJSON json = some v) (ho : v.isObject = false) (hn : v.isNull = false) :
    jsonUnmarshalMap lib json = .error .jsonUnmarshalType := by
  cases v <;> simp_all [jsonUnmarshalMap, JValue.isObject, JValue.isNull]

/-- When `json.Unmarshal` into the map succeeds, the text is an object or `null`. -/
theorem jsonUnmarshalMap_ok (lib : Lib) (json : String) (m : Claims)
    (h : jsonUnmarshalMap lib json = .ok m) :
    ∃ v, parseJSON json = some v ∧ (v.isObject = true ∨ v.isNull = true) := by
  unfold jsonUnmarshalMap at h
  cases hp : parseJSON json with
  | none => simp [hp] at h
  | some v =>
    refine ⟨v, rfl, ?_⟩
    cases v <;> simp_all [JValue.isObject, JValue.isNull]

/-- The set-claims body ends with `os.Exit(1)` and no remote call when
`json.Unmarshal` gives an error. -/
theorem setClaims_unmarshal_error (lib : Lib) (client : Client) (app : App) (uid json : String)
    (err : Error) (hu : isValidFirebaseUID uid = true)
    (h : jsonUnmarshalMap lib json = .error err) :
    (NewCmdUsersSetClaims.RunE lib client app [uid, json]).exit = .osExit 1 ∧
    (NewCmdUsersSetClaims.RunE lib client app [uid, json]).calls = [] := by
  simp [NewCmdUsersSetClaims.RunE, hu, h]

/-- C2: for every argument pair `(uid, json)` of set-claims, if `uid` fails the
identifier check, or passes it while `json` is not well-formed JSON, then the
command ends with exit code 1 and has made no remote call. -/
theorem C2_setClaims_invalid_input_no_call (lib : Lib) (client : Client) (app : App)
    (uid json : String)
    (h : isValidFirebaseUID uid = false ∨
      (isValidFirebaseUID uid = true ∧ parseJSON json = none)) :
    (NewCmdUsersSetClaims.RunE lib client app [uid, json]).exit = .osExit 1 ∧
    (NewCmdUsersSetClaims.RunE lib client app [uid, json]).calls = [] := by
  rcases h with h | ⟨hu, hj⟩
  · simp [NewCmdUsersSetClaims.RunE, h]
  · exact setClaims_unmarshal_error lib client app uid json _ hu
      (jsonUnmarshalMap_malformed lib json hj)

/-- C2 at the text `not-json` with an identifier that passes the check. -/
theorem C2_setClaims_invalid_input_no_call_witness :
    (isValidFirebaseUID sampleUID = true ∧ parseJSON "not-json" = none) ∧
    (NewCmdUsersSetClaims.RunE sampleLib okClient sampleApp [sampleUID, "not-json"]).exit
      = .osExit 1 ∧
    (NewCmdUsersSetClaims.RunE sampleLib okClient sampleApp [sampleUID, "not-json"]).calls = [] :=
  ⟨⟨by decide, by rfl⟩,
    C2_setClaims_invalid_input_no_call sampleLib okClient sampleApp sampleUID "not-json"
      (Or.inr ⟨by decide, by rfl⟩)⟩

/-- C3 as stated fails: the text `null` is well-formed JSON and not an object,
yet with an identifier that passes the check the command calls
`SetCustomUserClaims` (with the nil map), then `GetUser`, and returns nil. -/
theorem C3_null_reaches_SetCustomUserClaims :
    isValidFirebaseUID sampleUID = true ∧
    parseJSON "null" = some .null ∧
    JValue.isObject .null = false ∧
    (NewCmdUsersSetClaims.RunE sampleLib okClient sampleApp [sampleUID, "null"]).calls
      = [.SetCustomUserClaims sampleUID none, .GetUser sampleUID] ∧
    (NewCmdUsersSetClaims.RunE sampleLib okClient sampleApp [sampleUID, "null"]).exit
      = .returned none :=
  ⟨by decide, by rfl, by rfl, by rfl, by rfl⟩

/-- C3, amended: for an identifier that passes the check and a well-formed JSON
argument that is neither an object nor the literal `null`, set-claims ends with
exit code 1 and makes no remote call; for the literal `null` the claims map
stays nil and `SetCustomUserClaims` is called first, with the nil map; and
`SetCustomUserClaims` is called only when the argument parses as a JSON object
or as `null`. -/
theorem C3_setClaims_non_object (lib : Lib) (client : Client) (app : App) (uid json : String)
    (hu : isValidFirebaseUID uid = true) :
    (∀ v, parseJSON json = some v → v.isObject = false → v.isNull = false →
      (NewCmdUsersSetClaims.RunE lib client app [uid, json]).exit = .osExit 1 ∧
      (NewCmdUsersSetClaims.RunE lib client app [uid, json]).calls = []) ∧
    (parseJSON json = some .null →
      (NewCmdUsersSetClaims.RunE lib client app [uid, json]).calls.head?
        = some (.SetCustomUserClaims uid none)) ∧
    ((∃ c ∈ (NewCmdUsersSetClaims.RunE lib client app [uid, json]).calls,
        c.isSetCustomUserClaims = true) →
      ∃ v, parseJSON json = some v ∧ (v.isObject = true ∨ v.isNull = true)) := by
  refine ⟨fun v hv ho hn => ?_, fun hn => ?_, ?_⟩
  · exact setClaims_unmarshal_error lib client app uid json _ hu
      (jsonUnmarshalMap_other lib json v hv ho hn)
  · have hm : jsonUnmarshalMap lib json = .ok none := by simp [jsonUnmarshalMap, hn]
    simp only [NewCmdUsersSetClaims.RunE, hu, hm]
    cases client.SetCustomUserClaims [] uid none with
    | some e => simp
    | none => cases client.GetUser [.SetCustomUserClaims uid none] uid <;> simp
  · rintro ⟨c, hc, hset⟩
    cases hm : jsonUnmarshalMap lib json with
    | error e =>
      rw [(setClaims_unmarshal_error lib client app uid json e hu hm).2] at hc
      simp at hc
    | ok m => exact jsonUnmarshalMap_ok lib json m hm

/-- C3, amended, at the texts `[1]` (rejected) and `null` (accepted). -/
theorem C3_setClaims_non_object_witness :
    isValidFirebaseUID sampleUID = true ∧
    ((NewCmdUsersSetClaims.RunE sampleLib okClient sampleApp [sampleUID, "[1]"]).exit
        = .osExit 1 ∧
      (NewCmdUsersSetClaims.RunE sampleLib okClient sampleApp [sampleUID, "[1]"]).calls = []) ∧
    (NewCmdUsersSetClaims.RunE sampleLib okClient sampleApp [sampleUID, "null"]).calls.head?
      = some (.SetCustomUserClaims sampleUID none) :=
  ⟨by decide,
    (C3_setClaims_non_object sampleLib okClient sampleApp sampleUID "[1]" (by decide)).1
      (.array [.number "1"]) (by rfl) (by rfl) (by rfl),
    (C3_setClaims_non_object sampleLib okClient sampleApp sampleUID "null" (by decide)).2.1
      (by rfl)⟩

/-! ## Theorems: get -/

/-- C4 as stated fails: with an identifier that passes the check and a client
whose by-identifier lookup fails, the get command returns that error after the
single call `GetUser`; no by-email lookup is issued. -/
theorem C4_failed_GetUser_no_email_lookup :
    isValidFirebaseUID sampleUID = true ∧
    (NewCmdUsersGetOne.RunE sampleLib failingClient sampleApp [sampleUID]).calls
      = [.GetUser sampleUID] ∧
    (NewCmdUsersGetOne.RunE sampleLib failingClient sampleApp [sampleUID]).exit
      = .returned (some (.external "user not found")) :=
  ⟨by decide, by rfl, by rfl⟩

/-- C4, amended: for every argument `a` that passes the identifier check, if the
by-identifier lookup `GetUser(a)` succeeds and the record is rendered without
error, the command issues the by-email lookup `GetUserByEmail(a)` with the same
argument right after it; if `GetUser(a)` fails, or the rendering of its record
fails, the command returns that error and `GetUser(a)` is its only call. -/
theorem C4_getOne_lookups (lib : Lib) (client : Client) (app : App) (a : String)
    (hu : isValidFirebaseUID a = true) :
    (∀ u b, client.GetUser [] a = .ok u → lib.jsonMarshal u.CustomClaims = .ok b →
      (NewCmdUsersGetOne.RunE lib client app [a]).calls = [.GetUser a, .GetUserByEmail a]) ∧
    (∀ err, client.GetUser [] a = .error err →
      (NewCmdUsersGetOne.RunE lib client app [a]).calls = [.GetUser a] ∧
      (NewCmdUsersGetOne.RunE lib client app [a]).exit = .returned (some err)) ∧
    (∀ u err, client.GetUser [] a = .ok u → lib.jsonMarshal u.CustomClaims = .error err →
      (NewCmdUsersGetOne.RunE lib client app [a]).calls = [.GetUser a] ∧
      (NewCmdUsersGetOne.RunE lib client app [a]).exit = .returned (some err)) := by
  refine ⟨fun u b hg hm => ?_, fun err hg => ?_, fun u err hg hm => ?_⟩
  · simp only [NewCmdUsersGetOne.RunE, getOneByUID, hu, hg, displayUser, hm, if_true]
    cases client.GetUserByEmail [.GetUser a] a <;> simp
  · simp [NewCmdUsersGetOne.RunE, getOneByUID, hu, hg]
  · simp [NewCmdUsersGetOne.RunE, getOneByUID, hu, hg, displayUser, hm]

/-- C4, amended, at a client whose lookups succeed and at one whose lookups fail. -/
theorem C4_getOne_lookups_witness :
    isValidFirebaseUID sampleUID = true ∧
    (NewCmdUsersGetOne.RunE sampleLib okClient sampleApp [sampleUID]).calls
      = [.GetUser sampleUID, .GetUserByEmail sampleUID] ∧
    ((NewCmdUsersGetOne.RunE sampleLib failingClient sampleApp [sampleUID]).calls
        = [.GetUser sampleUID] ∧
      (NewCmdUsersGetOne.RunE sampleLib failingClient sampleApp [sampleUID]).exit
        = .returned (some (.external "user not found"))) :=
  ⟨by decide,
    (C4_getOne_lookups sampleLib okClient sampleApp sampleUID (by decide)).1
      sampleUser "null" rfl rfl,
    (C4_getOne_lookups sampleLib failingClient sampleApp sampleUID (by decide)).2.1
      (.external "user not found") rfl⟩

/-! ## Theorems: displayUser -/

/-- C10 (what the code does): for a record whose claims serialize to `b`,
`displayUser` returns nil and writes six lines in the order UID, email, display
name, email-verified, claims, creation date (from `CreationTimestamp / 1000`
seconds); the email-verified line and the creation-date line go to the process's
standard output and not to the writer given. -/
theorem C10_displayUser_lines (lib : Lib) (out : Writer) (u : UserRecord) (b : String)
    (h : lib.jsonMarshal u.CustomClaims = .ok b) :
    displayUser lib out u =
      (none,
       [.text out ("UID: " ++ u.UID ++ "\n"),
        .text out ("Email: " ++ u.Email ++ "\n"),
        .text out ("Display name: " ++ u.DisplayName ++ "\n"),
        .text .osStdout (if u.EmailVerified then "Email verified: Yes\n" else "Email verified: No\n"),
        .text out ("CustomClaims: " ++ b ++ "\n"),
        .text .osStdout
          ("Created: " ++ lib.formatRFC1123 (Int.tdiv u.CreationTimestamp 1000) ++ "\n")]) := by
  unfold displayUser
  rw [h]
  cases u.EmailVerified <;> rfl

/-- C10 at a writer that is not the standard output: of the six lines, four
reach the writer. -/
theorem C10_displayUser_lines_witness :
    sampleLib.jsonMarshal sampleUser.CustomClaims = .ok "null" ∧
    (displayUser sampleLib (.other 1) sampleUser).2.filter (fun o => o matches .text (.other 1) _)
      = [.text (.other 1) "UID: abcdefghijklmnopqrstuvwxyz01\n",
         .text (.other 1) "Email: ann@example.com\n",
         .text (.other 1) "Display name: Ann\n",
         .text (.other 1) "CustomClaims: null\n"] ∧
    (displayUser sampleLib (.other 1) sampleUser).2.filter (fun o => o matches .text .osStdout _)
      = [.text .osStdout "Email verified: Yes\n", .text .osStdout "Created: 1\n"] := by
  have h := C10_displayUser_lines sampleLib (.other 1) sampleUser "null" rfl
  refine ⟨rfl, ?_, ?_⟩
  · rw [h]; decide
  · rw [h]; decide

/-! ## Theorems: list -/

theorem pageRows_append (us vs : List ExportedUserRecord) :
    pageRows (us ++ vs) = pageRows us ++ pageRows vs := by
  simp [pageRows]

/-- The rows of the flushes: the rows held, then the rows of the pages. -/
theorem writtenRows_flushes (w : Writer) (ps : List Page) :
    ∀ tw, ps ≠ [] → writtenRows w (flushes w tw ps) = tw ++ pageRows (ps.flatMap (·.1)) := by
  induction ps with
  | nil => intro tw h; exact absurd rfl h
  | cons p ps ih =>
    intro tw _
    cases ps with
    | nil => simp [flushes, writtenRows]
    | cons q qs =>
      have := ih [] (by simp)
      simp only [flushes, writtenRows, if_true] at this ⊢
      rw [this]
      simp [pageRows_append, List.flatMap_cons]

theorem flushes_tables (w : Writer) (ps : List Page) :
    ∀ tw, ∀ x ∈ flushes w tw ps, ∃ rows, x = .table w rows := by
  induction ps with
  | nil => intro tw x hx; simp [flushes] at hx
  | cons p ps ih =>
    intro tw x hx
    simp only [flushes, List.mem_cons] at hx
    rcases hx with rfl | hx
    · exact ⟨_, rfl⟩
    · exact ih [] x hx

/-- The loop over pages that all carry a non-empty token: after them the loop
goes on with the calls made, an empty `tabwriter` (if there was a page) and one
flush per page written. -/
theorem listLoop_pages (lib : Lib) (client : Client) (app : App) (ps : List Page) :
    ∀ (fuel : Nat) (calls : List Call) (tw : List Row) (out : List Output),
      (∀ p ∈ ps, p.2 ≠ "") →
      (∀ j (h : j < ps.length),
        client.NextPage (calls ++ List.replicate j .NextPage) = .ok ps[j]) →
      listLoop lib client app (fuel + ps.length) calls tw out =
        listLoop lib client app fuel (calls ++ List.replicate ps.length .NextPage)
          (if ps.isEmpty then tw else []) (out ++ flushes app.stdOut tw ps) := by
  induction ps with
  | nil => intro fuel calls tw out _ _; simp [flushes]
  | cons p ps ih =>
    intro fuel calls tw out htok hserve
    have h0 : client.NextPage calls = .ok p := by simpa using hserve 0 (by simp)
    have hp : p.2 ≠ "" := htok p (by simp)
    have hstep : listLoop lib client app (fuel + ps.length + 1) calls tw out =
        listLoop lib client app (fuel + ps.length) (calls ++ [.NextPage]) []
          (out ++ [Output.table app.stdOut (tw ++ pageRows p.1)]) := by
      rw [listLoop, h0]
      simp [hp]
    have hrec := ih fuel (calls ++ [.NextPage]) []
      (out ++ [Output.table app.stdOut (tw ++ pageRows p.1)])
      (fun q hq => htok q (List.mem_cons_of_mem _ hq))
      (fun j hj => by
        have := hserve (j + 1) (by simpa using hj)
        simpa [List.replicate_succ, List.append_assoc] using this)
    rw [show fuel + (p :: ps).length = fuel + ps.length + 1 by simp [Nat.add_assoc], hstep, hrec]
    congr 1
    · simp [List.replicate_succ, List.append_assoc]
    · cases ps <;> simp
    · simp [flushes, List.append_assoc]

theorem flushes_append_singleton (w : Writer) (ps : List Page) (q : Page) :
    ∀ tw, flushes w tw (ps ++ [q]) =
      flushes w tw ps ++ [.table w ((if ps.isEmpty then tw else []) ++ pageRows q.1)] := by
  induction ps with
  | nil => intro tw; simp [flushes]
  | cons p ps ih =>
    intro tw
    have := ih []
    cases ps with
    | nil => simp [flushes]
    | cons r rs => simp [flushes] at this ⊢; exact this

/-- The list command over pages of which only the last carries the empty token. -/
theorem list_run_complete (lib : Lib) (client : Client) (app : App) (init : List Page)
    (last : Page) (fuel : Nat) (htok : ∀ p ∈ init, p.2 ≠ "") (hlast : last.2 = "")
    (hserve : ∀ j (h : j < (init ++ [last]).length),
      client.NextPage (List.replicate j .NextPage) = .ok (init ++ [last])[j])
    (hfuel : init.length + 1 ≤ fuel) :
    NewCmdUsersList.RunE lib client app fuel =
      some { exit := .returned none, calls := List.replicate (init.length + 1) .NextPage,
             out := flushes app.stdOut [headerRow] (init ++ [last]) } := by
  obtain ⟨f, rfl⟩ : ∃ f, fuel = (f + 1) + init.length := ⟨fuel - init.length - 1, by omega⟩
  have hpre := listLoop_pages lib client app init (f + 1) [] [headerRow] [] htok
    (fun j hj => by
      have := hserve j (by simp; omega)
      simpa [List.getElem_append_left hj] using this)
  have hl : client.NextPage (List.replicate init.length .NextPage) = .ok last := by
    simpa using hserve init.length (by simp)
  unfold NewCmdUsersList.RunE
  rw [hpre]
  simp only [List.nil_append]
  rw [listLoop, hl]
  simp [hlast, flushes_append_singleton, List.replicate_succ']

/-- The list command over pages with non-empty tokens followed by a failing page
request. -/
theorem list_run_fails (lib : Lib) (client : Client) (app : App) (ps : List Page) (err : Error)
    (fuel : Nat) (htok : ∀ p ∈ ps, p.2 ≠ "")
    (hserve : ∀ j (h : j < ps.length), client.NextPage (List.replicate j .NextPage) = .ok ps[j])
    (hfail : client.NextPage (List.replicate ps.length .NextPage) = .error err)
    (hfuel : ps.length + 1 ≤ fuel) :
    NewCmdUsersList.RunE lib client app fuel =
      some { exit := .returned (some (.wrap err (lib.sprintf0 "[run] paging error %v\n"))),
             calls := List.replicate (ps.length + 1) .NextPage,
             out := flushes app.stdOut [headerRow] ps } := by
  obtain ⟨f, rfl⟩ : ∃ f, fuel = (f + 1) + ps.length := ⟨fuel - ps.length - 1, by omega⟩
  have hpre := listLoop_pages lib client app ps (f + 1) [] [headerRow] [] htok
    (fun j hj => by simpa using hserve j hj)
  unfold NewCmdUsersList.RunE
  rw [hpre]
  simp only [List.nil_append]
  rw [listLoop, hfail]
  simp [List.replicate_succ']

/-- The sample client serves its pages in order. -/
theorem pagesClient_serves (pages : List Page) (i : Nat) (h : i < pages.length) :
    (pagesClient pages).NextPage (List.replicate i .NextPage) = .ok pages[i] := by
  simp [pagesClient, List.getElem?_eq_getElem h]

/-- The sample client fails after its pages. -/
theorem pagesClient_fails (pages : List Page) :
    (pagesClient pages).NextPage (List.replicate pages.length .NextPage)
      = .error (.external "unavailable") := by
  simp [pagesClient]

/-- C5: for every finite sequence of pages served without error in which the
last page is the first to carry the empty token, the list command (given at
least as many rounds as there are pages) requests exactly those pages, returns
nil, and writes to its output, after the header row, exactly one row (UID,
email, display name) for each record with a non-empty email, in the order of the
concatenated pages; records with an empty email give no row. -/
theorem C5_list_complete (lib : Lib) (client : Client) (app : App) (pages : List Page)
    (fuel : Nat) (hne : pages ≠ [])
    (hcursor : ∀ i (h : i < pages.length), (pages[i].2 = "" ↔ i + 1 = pages.length))
    (hserve : ∀ i (h : i < pages.length),
      client.NextPage (List.replicate i .NextPage) = .ok pages[i])
    (hfuel : pages.length ≤ fuel) :
    ∃ o, NewCmdUsersList.RunE lib client app fuel = some o ∧
      o.exit = .returned none ∧
      o.calls = List.replicate pages.length .NextPage ∧
      writtenRows app.stdOut o.out =
        headerRow :: ((pages.flatMap (·.1)).filter fun u => u.Email != "").map
          (fun u => ⟨u.UID, u.Email, u.DisplayName⟩) ∧
      ∀ x ∈ o.out, ∃ rows, x = .table app.stdOut rows := by
  obtain ⟨init, last, rfl⟩ : ∃ init last, pages = init ++ [last] :=
    ⟨pages.dropLast, pages.getLast hne, (List.dropLast_append_getLast hne).symm⟩
  have hlen : (init ++ [last]).length = init.length + 1 := by simp
  have htok : ∀ p ∈ init, p.2 ≠ "" := by
    intro p hp
    obtain ⟨j, hj, rfl⟩ := List.getElem_of_mem hp
    have h := hcursor j (by omega)
    rw [List.getElem_append_left hj] at h
    intro he
    have := h.mp he
    omega
  have hlast : last.2 = "" := by
    have h := hcursor init.length (by omega)
    simp only [List.getElem_concat_length] at h
    exact h.mpr (by omega)
  refine ⟨_, list_run_complete lib client app init last fuel htok hlast hserve (by omega),
    rfl, by rw [hlen], ?_, flushes_tables _ _ _⟩
  show writtenRows app.stdOut (flushes app.stdOut [headerRow] (init ++ [last])) = _
  rw [writtenRows_flushes _ _ _ (by simp)]
  rfl

/-- C5 at three pages (two users, one user, two users; two of the five have no
email): three page requests, and the header row with three rows written. -/
theorem C5_list_complete_witness :
    (∃ o, NewCmdUsersList.RunE sampleLib (pagesClient samplePages) sampleApp 3 = some o ∧
      o.exit = .returned none ∧
      o.calls = List.replicate samplePages.length .NextPage ∧
      writtenRows sampleApp.stdOut o.out =
        headerRow :: ((samplePages.flatMap (·.1)).filter fun u => u.Email != "").map
          (fun u => ⟨u.UID, u.Email, u.DisplayName⟩) ∧
      ∀ x ∈ o.out, ∃ rows, x = .table sampleApp.stdOut rows) ∧
    (NewCmdUsersList.RunE sampleLib (pagesClient samplePages) sampleApp 3).map
        (fun o => writtenRows .osStdout o.out) =
      some [⟨"UID", "Email", "DISPLAY NAME"⟩, ⟨"u1", "a@example.com", "A"⟩,
        ⟨"u3", "c@example.com", "C"⟩, ⟨"u5", "e@example.com", "E"⟩] :=
  ⟨C5_list_complete sampleLib (pagesClient samplePages) sampleApp samplePages 3 (by decide)
    (by decide) (pagesClient_serves samplePages) (by decide), by rfl⟩

/-- C9 as stated fails when the first page request fails (`k = 0`): the command
returns the wrapped error and nothing has been written; the header row is still
held by the `tabwriter`, which is flushed only after a page. -/
theorem C9_first_page_fails_no_header :
    (NewCmdUsersList.RunE sampleLib failingClient sampleApp 1).map (·.out) = some [] ∧
    (NewCmdUsersList.RunE sampleLib failingClient sampleApp 1).map (·.exit) =
      some (.returned (some (.wrap (.external "unavailable") "[run] paging error %v\n"))) ∧
    (NewCmdUsersList.RunE sampleLib failingClient sampleApp 1).map (·.calls.length) = some 1 :=
  ⟨by rfl, by rfl, by rfl⟩

/-- C9, amended: for every sequence of `k` successful pages (each with a
non-empty token) followed by a failing page request, the list command (given
more than `k` rounds) returns an error that wraps the paging failure, after
`k + 1` page requests; if `k ≥ 1` the output written is the header row and then
the rows of all non-empty-email records of the `k` pages, in order, and nothing
for the failing page; if `k = 0` nothing at all has been written. -/
theorem C9_list_failing_page (lib : Lib) (client : Client) (app : App) (pages : List Page)
    (err : Error) (fuel : Nat) (htok : ∀ p ∈ pages, p.2 ≠ "")
    (hserve : ∀ i (h : i < pages.length),
      client.NextPage (List.replicate i .NextPage) = .ok pages[i])
    (hfail : client.NextPage (List.replicate pages.length .NextPage) = .error err)
    (hfuel : pages.length + 1 ≤ fuel) :
    ∃ o, NewCmdUsersList.RunE lib client app fuel = some o ∧
      o.exit = .returned (some (.wrap err (lib.sprintf0 "[run] paging error %v\n"))) ∧
      o.calls = List.replicate (pages.length + 1) .NextPage ∧
      (pages ≠ [] → writtenRows app.stdOut o.out =
        headerRow :: ((pages.flatMap (·.1)).filter fun u => u.Email != "").map
          (fun u => ⟨u.UID, u.Email, u.DisplayName⟩)) ∧
      (pages = [] → o.out = []) ∧
      ∀ x ∈ o.out, ∃ rows, x = .table app.stdOut rows := by
  refine ⟨_, list_run_fails lib client app pages err fuel htok hserve hfail hfuel,
    rfl, rfl, fun hne => ?_, fun he => ?_, flushes_tables _ _ _⟩
  · show writtenRows app.stdOut (flushes app.stdOut [headerRow] pages) = _
    rw [writtenRows_flushes _ _ _ hne]
    rfl
  · subst he; rfl

/-- C9, amended, at two pages served and a failure of the third request. -/
theorem C9_list_failing_page_witness :
    ∃ o, NewCmdUsersList.RunE sampleLib (pagesClient (samplePages.take 2)) sampleApp 3 = some o ∧
      o.exit = .returned (some (.wrap (.external "unavailable")
        (sampleLib.sprintf0 "[run] paging error %v\n"))) ∧
      o.calls = List.replicate ((samplePages.take 2).length + 1) .NextPage ∧
      (samplePages.take 2 ≠ [] → writtenRows sampleApp.stdOut o.out =
        headerRow :: (((samplePages.take 2).flatMap (·.1)).filter fun u => u.Email != "").map
          (fun u => ⟨u.UID, u.Email, u.DisplayName⟩)) ∧
      (samplePages.take 2 = [] → o.out = []) ∧
      ∀ x ∈ o.out, ∃ rows, x = .table sampleApp.stdOut rows :=
  C9_list_failing_page sampleLib (pagesClient (samplePages.take 2)) sampleApp
    (samplePages.take 2) (.external "unavailable") 3 (by decide)
    (pagesClient_serves (samplePages.take 2)) (pagesClient_fails (samplePages.take 2))
    (by decide)

/-! ## Theorems: the config loader and `run` -/

/-- After the first entry the loop leaves `Current` alone, and it succeeds when
every file is readable. -/
theorem loadAccounts_readable (os : OS) (refs : List serviceAccountRef) :
    ∀ (i : Nat) (cfg : Config), 0 < i →
      (∀ v ∈ refs, ∃ b, os.ReadFile v.Filepath = .ok b) →
      ∃ cfg', loadAccounts os i refs cfg = (some cfg', none) ∧ cfg'.Current = cfg.Current := by
  induction refs with
  | nil => intro i cfg _ _; exact ⟨cfg, rfl, rfl⟩
  | cons v rest ih =>
    intro i cfg hi hall
    obtain ⟨b, hb⟩ := hall v (by simp)
    have hne : i ≠ 0 := by omega
    obtain ⟨cfg', h, hc⟩ := ih (i + 1)
      { cfg with Cfgs := mapSet v.ProjectID { FBCreds := b } cfg.Cfgs } (by omega)
      (fun w hw => hall w (List.mem_cons_of_mem _ hw))
    refine ⟨cfg', ?_, hc⟩
    rw [loadAccounts, hb]
    simpa [hne] using h

/-- The loop gives no configuration and the error of a read when a file cannot
be read. -/
theorem loadAccounts_unreadable (os : OS) (refs : List serviceAccountRef) :
    ∀ (i : Nat) (cfg : Config),
      (∃ v ∈ refs, ∃ e, os.ReadFile v.Filepath = .error e) →
      ∃ err, loadAccounts os i refs cfg = (none, some err) ∧
        ∃ v ∈ refs, os.ReadFile v.Filepath = .error err := by
  induction refs with
  | nil => intro i cfg h; obtain ⟨v, hv, -⟩ := h; simp at hv
  | cons v rest ih =>
    intro i cfg hbad
    cases hb : os.ReadFile v.Filepath with
    | error e => exact ⟨e, by rw [loadAccounts, hb], v, by simp, hb⟩
    | ok b =>
      have hrest : ∃ w ∈ rest, ∃ e, os.ReadFile w.Filepath = .error e := by
        obtain ⟨w, hw, e, he⟩ := hbad
        rcases List.mem_cons.mp hw with rfl | hw
        · rw [hb] at he; cases he
        · exact ⟨w, hw, e, he⟩
      obtain ⟨err, h, w, hw, hwe⟩ := ih (i + 1)
        (if i = 0 then
          { Current := some { FBCreds := b },
            Cfgs := mapSet v.ProjectID { FBCreds := b } cfg.Cfgs }
         else { cfg with Cfgs := mapSet v.ProjectID { FBCreds := b } cfg.Cfgs }) hrest
      refine ⟨err, ?_, w, List.mem_cons_of_mem _ hw, hwe⟩
      rw [loadAccounts, hb]
      exact h

/-- The config loader up to the loop, when the manifest is found and decodes. -/
theorem NewConfigFromFile_decoded (os : OS) (hd : String) (f : Bytes)
    (sac : serviceAccountsConfig) (hhome : os.userCurrent = .ok hd)
    (hopen : os.Open (os.filepathJoin [hd, configDir, configFile]) = .ok f)
    (hdec : os.Decode f = .ok sac) :
    NewConfigFromFile os =
      loadAccounts os 0 sac.ServiceAccounts { Current := none, Cfgs := [] } := by
  simp [NewConfigFromFile, homeDir, hhome, hopen, hdec]

/-- C6: for every manifest with at least one entry whose referenced files are all
readable, `NewConfigFromFile` succeeds and `Current.FBCreds` is exactly the
contents read from the file of the first entry, whatever the later entries are. -/
theorem C6_first_entry_is_default (os : OS) (hd : String) (f : Bytes)
    (first : serviceAccountRef) (rest : List serviceAccountRef) (b : Bytes)
    (hhome : os.userCurrent = .ok hd)
    (hopen : os.Open (os.filepathJoin [hd, configDir, configFile]) = .ok f)
    (hdec : os.Decode f = .ok { ServiceAccounts := first :: rest })
    (hfirst : os.ReadFile first.Filepath = .ok b)
    (hrest : ∀ v ∈ rest, ∃ b', os.ReadFile v.Filepath = .ok b') :
    ∃ cfg, NewConfigFromFile os = (some cfg, none) ∧ cfg.Current = some { FBCreds := b } := by
  rw [NewConfigFromFile_decoded os hd f _ hhome hopen hdec]
  obtain ⟨cfg', h, hc⟩ := loadAccounts_readable os rest 1
    { Current := some { FBCreds := b }, Cfgs := mapSet first.ProjectID { FBCreds := b } [] }
    (by omega) hrest
  refine ⟨cfg', ?_, hc⟩
  rw [loadAccounts, hfirst]
  exact h

/-- C6 at a manifest of two entries with the same project identifier and
different files: the default credential is the contents of the first file. -/
theorem C6_first_entry_is_default_witness :
    ∃ cfg, NewConfigFromFile (sampleOS ⟨[⟨"p", "a.json"⟩, ⟨"p", "b.json"⟩]⟩) = (some cfg, none) ∧
      cfg.Current = some { FBCreds := [1, 2, 3] } :=
  C6_first_entry_is_default (sampleOS ⟨[⟨"p", "a.json"⟩, ⟨"p", "b.json"⟩]⟩) "/home/ann" []
    ⟨"p", "a.json"⟩ [⟨"p", "b.json"⟩] [1, 2, 3] rfl rfl rfl rfl
    (fun v hv => by
      rw [List.mem_singleton] at hv
      subst hv
      exact ⟨[4, 5], rfl⟩)

/-- C7: for every manifest in which some entry, in any position, references a
credential file that cannot be read, `NewConfigFromFile` returns no
configuration (nil) and the error of a failed read, and `run` returns that
error before the dispatcher and the session bootstrap are started: no step, no
remote call, no output. -/
theorem C7_unreadable_credential_aborts (os : OS) (hd : String) (f : Bytes)
    (sac : serviceAccountsConfig) (hhome : os.userCurrent = .ok hd)
    (hopen : os.Open (os.filepathJoin [hd, configDir, configFile]) = .ok f)
    (hdec : os.Decode f = .ok sac)
    (hbad : ∃ v ∈ sac.ServiceAccounts, ∃ e, os.ReadFile v.Filepath = .error e) :
    ∃ err, NewConfigFromFile os = (none, some err) ∧
      (∃ v ∈ sac.ServiceAccounts, os.ReadFile v.Filepath = .error err) ∧
      ∀ (lib : Lib) (fb : Firebase) (showError : Error → String) (sel : Selected) (fuel : Nat),
        run os lib fb showError sel fuel =
          { exit := .returned (some err), events := [], calls := [], out := [] } := by
  obtain ⟨err, h, hv⟩ := loadAccounts_unreadable os sac.ServiceAccounts 0
    { Current := none, Cfgs := [] } hbad
  rw [← NewConfigFromFile_decoded os hd f sac hhome hopen hdec] at h
  refine ⟨err, h, hv, fun lib fb showError sel fuel => ?_⟩
  unfold run
  rw [h]

/-- C7 at a manifest whose second entry references a missing file. -/
theorem C7_unreadable_credential_aborts_witness :
    ∃ err, NewConfigFromFile (sampleOS ⟨[⟨"p", "a.json"⟩, ⟨"q", "missing.json"⟩]⟩)
        = (none, some err) ∧
      (∃ v ∈ [(⟨"p", "a.json"⟩ : serviceAccountRef), ⟨"q", "missing.json"⟩],
        (sampleOS ⟨[⟨"p", "a.json"⟩, ⟨"q", "missing.json"⟩]⟩).ReadFile v.Filepath = .error err) ∧
      ∀ (lib : Lib) (fb : Firebase) (showError : Error → String) (sel : Selected) (fuel : Nat),
        run (sampleOS ⟨[⟨"p", "a.json"⟩, ⟨"q", "missing.json"⟩]⟩) lib fb showError sel fuel =
          { exit := .returned (some err), events := [], calls := [], out := [] } :=
  C7_unreadable_credential_aborts (sampleOS ⟨[⟨"p", "a.json"⟩, ⟨"q", "missing.json"⟩]⟩)
    "/home/ann" [] ⟨[⟨"p", "a.json"⟩, ⟨"q", "missing.json"⟩]⟩ rfl rfl rfl
    ⟨⟨"q", "missing.json"⟩, by simp, .external "no such file", rfl⟩

/-- C8 (what the code does): for a manifest that decodes to an empty sequence of
service accounts, `NewConfigFromFile` succeeds with a configuration whose
`Current` is nil; the session bootstrap then reads `cfg.Current.FBCreds` through
the nil pointer, so a command that is run ends in a nil-pointer panic before any
call to Firebase. -/
theorem C8_empty_manifest_nil_current (os : OS) (hd : String) (f : Bytes)
    (hhome : os.userCurrent = .ok hd)
    (hopen : os.Open (os.filepathJoin [hd, configDir, configFile]) = .ok f)
    (hdec : os.Decode f = .ok { ServiceAccounts := [] }) :
    NewConfigFromFile os = (some { Current := none, Cfgs := [] }, none) ∧
    ∀ (lib : Lib) (fb : Firebase) (showError : Error → String) (fuel : Nat),
      PersistentPreRunE fb (NewApp (some { Current := none, Cfgs := [] }))
        = (none, [.persistentPreRunE]) ∧
      run os lib fb showError (.list []) fuel =
        { exit := .nilDereference, events := [.executeContext, .persistentPreRunE],
          calls := [], out := [] } := by
  have h : NewConfigFromFile os = (some { Current := none, Cfgs := [] }, none) := by
    rw [NewConfigFromFile_decoded os hd f _ hhome hopen hdec]
    rfl
  refine ⟨h, fun lib fb showError fuel => ⟨rfl, ?_⟩⟩
  unfold run
  rw [h]
  rfl

/-- C8 at the sample operating system with an empty manifest. -/
theorem C8_empty_manifest_nil_current_witness :
    NewConfigFromFile (sampleOS ⟨[]⟩) = (some { Current := none, Cfgs := [] }, none) ∧
    (run (sampleOS ⟨[]⟩) sampleLib sampleFirebase (fun _ => "error") (.list []) 1).exit
      = .nilDereference :=
  ⟨(C8_empty_manifest_nil_current (sampleOS ⟨[]⟩) "/home/ann" [] rfl rfl rfl).1,
    by rw [((C8_empty_manifest_nil_current (sampleOS ⟨[]⟩) "/home/ann" [] rfl rfl rfl).2
      sampleLib sampleFirebase (fun _ => "error") 1).2]⟩

end Fbauthtool
